import Mathlib

/-!
# mewz: `src/c/rdtsc.c`

A shallow embedding of the C function

```c
unsigned long long rdtsc(void)
{
  unsigned int lo, hi;
  __asm__ __volatile__("mfence");
  __asm__ __volatile__("rdtsc"
                       : "=a"(lo), "=d"(hi));
  __asm__ __volatile__("mfence");
  return ((unsigned long long)hi << 32) | lo;
}
```

Machine integers are natural numbers with explicit reduction modulo `2 ^ 32`
(`unsigned int`) and `2 ^ 64` (`unsigned long long`).  The three inline
assembly statements are state transformers on an explicit machine state; each
one appends the instruction it issues to an event trace.
-/

namespace Mewz

/-- An instruction issued by an inline assembly statement.  The counter read
carries the two register values it delivered (`EAX`, `EDX`). -/
inductive Event where
  | mfence
  | rdtsc (eax edx : Nat)
  deriving DecidableEq, Repr

/-- The machine state the function runs on: the time-stamp counter at the
moment of the read, the general-purpose registers (by encoding number), the
memory, the objects with static storage, and the instructions issued so far. -/
structure Machine where
  tsc : Nat
  regs : Nat → Nat
  mem : Nat → Nat
  globals : String → Nat
  trace : List Event

/-- Encoding number of the accumulator register, constraint `"a"`. -/
def RAX : Nat := 0

/-- Encoding number of the data register, constraint `"d"`. -/
def RDX : Nat := 2

/-- Register file update. -/
def setReg (regs : Nat → Nat) (r v : Nat) : Nat → Nat :=
  fun i => if i = r then v else regs i

/-- The pair `(EAX, EDX)` the `rdtsc` instruction loads from a counter value:
the low 32 bits and the high 32 bits of the 64-bit counter.  This is the
architectural behaviour of the instruction named in the assembly statement
(the hardware splits the counter into a low and a high word); the C source
only names the two output registers. -/
def hw_rdtsc (tsc : Nat) : Nat × Nat :=
  (tsc % 2 ^ 32, (tsc / 2 ^ 32) % 2 ^ 32)

/-- The statement `__asm__ __volatile__("mfence")`: no operands, no clobbers;
it issues a fence and changes nothing else. -/
def asm_mfence (m : Machine) : Machine :=
  { m with trace := m.trace ++ [Event.mfence] }

/-- The instruction of `__asm__ __volatile__("rdtsc" : "=a"(lo), "=d"(hi))`:
it loads `EDX:EAX` from the counter. -/
def asm_rdtsc (m : Machine) : Machine :=
  let eax := (hw_rdtsc m.tsc).1
  let edx := (hw_rdtsc m.tsc).2
  { m with
    regs := setReg (setReg m.regs RAX eax) RDX edx
    trace := m.trace ++ [Event.rdtsc eax edx] }

/-- The function `rdtsc` of `src/c/rdtsc.c`: the returned `unsigned long long`
and the machine state after the call. -/
def rdtsc (m : Machine) : Nat × Machine :=
  let m1 := asm_mfence m
  let m2 := asm_rdtsc m1
  -- output operands, stored in `unsigned int` objects
  let lo := m2.regs RAX % 2 ^ 32
  let hi := m2.regs RDX % 2 ^ 32
  let m3 := asm_mfence m2
  -- `((unsigned long long)hi << 32) | lo`
  ((((hi % 2 ^ 64) <<< 32) % 2 ^ 64) ||| (lo % 2 ^ 64), m3)

/-- The hardware advancing the counter to `c` between two instructions. -/
def advance (c : Nat) (m : Machine) : Machine :=
  { m with tsc := c }

/-- Subtraction of two `unsigned long long` values, as C computes `b - a`. -/
def sub64 (b a : Nat) : Nat :=
  (b + 2 ^ 64 - a) % 2 ^ 64

/-- A sample machine state: counter `0x1_0000_0005`, everything else zero. -/
def sampleA : Machine :=
  { tsc := 4294967301, regs := fun _ => 0, mem := fun _ => 0,
    globals := fun _ => 0, trace := [] }

/-- A sample machine state with the counter of `sampleA` and different
memory, registers, statics and trace. -/
def sampleB : Machine :=
  { tsc := 4294967301, regs := fun i => i + 7, mem := fun a => 2 * a + 1,
    globals := fun s => s.length, trace := [Event.mfence] }

/-! ## Helper lemmas -/

theorem or_eq_add_of_halves (lo hi : Nat) (hlo : lo < 2 ^ 32) :
    (hi <<< 32) ||| lo = hi * 2 ^ 32 + lo := by
  rw [Nat.shiftLeft_eq, Nat.mul_comm hi, ← Nat.mul_add_lt_is_or hlo]

theorem ret_eq_of_halves (m : Machine) :
    (rdtsc m).1 = (hw_rdtsc m.tsc).2 * 2 ^ 32 + (hw_rdtsc m.tsc).1 := by
  have hlo : m.tsc % 2 ^ 32 < 2 ^ 32 := Nat.mod_lt _ (by norm_num)
  have hhi : (m.tsc / 2 ^ 32) % 2 ^ 32 < 2 ^ 32 := Nat.mod_lt _ (by norm_num)
  simp only [rdtsc, asm_rdtsc, asm_mfence, hw_rdtsc, setReg, RAX, RDX]
  simp only [if_pos, if_neg, Nat.reduceEqDiff, ↓reduceIte]
  rw [Nat.mod_eq_of_lt (a := m.tsc % 2 ^ 32 % 2 ^ 32) (by omega)]
  rw [Nat.mod_eq_of_lt (a := m.tsc / 2 ^ 32 % 2 ^ 32 % 2 ^ 32) (by omega)]
  rw [Nat.mod_mod, Nat.mod_mod, Nat.shiftLeft_eq]
  rw [Nat.mod_eq_of_lt (a := m.tsc / 2 ^ 32 % 2 ^ 32 * 2 ^ 32) (by omega)]
  rw [← Nat.shiftLeft_eq, or_eq_add_of_halves _ _ hlo, Nat.shiftLeft_eq]

theorem ret_eq_tsc_mod (m : Machine) : (rdtsc m).1 = m.tsc % 2 ^ 64 := by
  rw [ret_eq_of_halves]
  simp only [hw_rdtsc]
  omega

theorem halves_lt (tsc lo hi : Nat) (h : hw_rdtsc tsc = (lo, hi)) :
    lo < 2 ^ 32 ∧ hi < 2 ^ 32 := by
  simp only [hw_rdtsc, Prod.mk.injEq] at h
  omega

theorem every_pair_delivered (lo hi : Nat) (hlo : lo < 2 ^ 32) (hhi : hi < 2 ^ 32) :
    hw_rdtsc (hi * 2 ^ 32 + lo) = (lo, hi) := by
  simp only [hw_rdtsc, Prod.mk.injEq]
  omega

theorem ret_of_delivered (m : Machine) (lo hi : Nat) (h : hw_rdtsc m.tsc = (lo, hi)) :
    (rdtsc m).1 = hi * 2 ^ 32 + lo := by
  rw [ret_eq_of_halves, h]

theorem state_after (m : Machine) :
    (rdtsc m).2 =
      { m with
        regs := setReg (setReg m.regs RAX (hw_rdtsc m.tsc).1) RDX (hw_rdtsc m.tsc).2
        trace := m.trace ++
          [Event.mfence, Event.rdtsc (hw_rdtsc m.tsc).1 (hw_rdtsc m.tsc).2, Event.mfence] } := by
  simp [rdtsc, asm_rdtsc, asm_mfence]

/-! ## Reassembly of the two halves -/

/-- C1: whenever the counter read delivers the pair `lo`, `hi` (always two
32-bit values), `rdtsc` returns `(hi << 32) | lo`; the shift loses no bit of
`hi` in 64 bits, the value equals `hi * 2 ^ 32 + lo` exactly, and it is below
`2 ^ 64`. -/
theorem rdtsc_reassembles (m : Machine) (lo hi : Nat)
    (h : hw_rdtsc m.tsc = (lo, hi)) :
    (rdtsc m).1 = (hi <<< 32) ||| lo ∧
      (hi <<< 32) % 2 ^ 64 = hi <<< 32 ∧
      (rdtsc m).1 = hi * 2 ^ 32 + lo ∧
      (rdtsc m).1 < 2 ^ 64 := by
  obtain ⟨hlo, hhi⟩ := halves_lt _ _ _ h
  have hr := ret_of_delivered m lo hi h
  refine ⟨?_, ?_, hr, ?_⟩
  · rw [hr, or_eq_add_of_halves lo hi hlo]
  · rw [Nat.shiftLeft_eq]
    exact Nat.mod_eq_of_lt (by omega)
  · rw [hr]
    omega

theorem rdtsc_reassembles_witness :
    hw_rdtsc sampleA.tsc = (5, 1) ∧
      ((rdtsc sampleA).1 = (1 <<< 32) ||| 5 ∧
        (1 <<< 32) % 2 ^ 64 = 1 <<< 32 ∧
        (rdtsc sampleA).1 = 1 * 2 ^ 32 + 5 ∧
        (rdtsc sampleA).1 < 2 ^ 64) :=
  ⟨by decide, rdtsc_reassembles sampleA 5 1 (by decide)⟩

/-- C2: round trip with the hardware split.  For every 64-bit counter value
`c`, when the read delivers `lo = c mod 2 ^ 32` and `hi = c >> 32`, `rdtsc`
returns exactly `c`. -/
theorem rdtsc_round_trip (m : Machine) (c : Nat) (_hc : c < 2 ^ 64)
    (h : hw_rdtsc m.tsc = (c % 2 ^ 32, c >>> 32)) :
    (rdtsc m).1 = c := by
  rw [ret_of_delivered m _ _ h, Nat.shiftRight_eq_div_pow]
  omega

theorem rdtsc_round_trip_witness :
    (4294967301 < 2 ^ 64 ∧
      hw_rdtsc sampleA.tsc = (4294967301 % 2 ^ 32, 4294967301 >>> 32)) ∧
      (rdtsc sampleA).1 = 4294967301 :=
  ⟨⟨by decide, by decide⟩,
    rdtsc_round_trip sampleA 4294967301 (by decide) (by decide)⟩

/-- C9: the two halves occupy disjoint bit ranges of the result and are
recoverable from it.  With `r` the value `rdtsc` returns on a read delivering
`lo`, `hi`: `r >> 32 = hi` and `r mod 2 ^ 32 = lo`; and a read that differs in
either half yields a different return value. -/
theorem rdtsc_halves_recoverable (m : Machine) (lo hi : Nat)
    (h : hw_rdtsc m.tsc = (lo, hi)) :
    (rdtsc m).1 >>> 32 = hi ∧ (rdtsc m).1 % 2 ^ 32 = lo ∧
      ∀ (m2 : Machine) (lo2 hi2 : Nat), hw_rdtsc m2.tsc = (lo2, hi2) →
        (lo ≠ lo2 ∨ hi ≠ hi2) → (rdtsc m).1 ≠ (rdtsc m2).1 := by
  obtain ⟨hlo, hhi⟩ := halves_lt _ _ _ h
  have hr := ret_of_delivered m lo hi h
  refine ⟨?_, ?_, ?_⟩
  · rw [hr, Nat.shiftRight_eq_div_pow]
    omega
  · rw [hr]
    omega
  · intro m2 lo2 hi2 h2 hne
    obtain ⟨hlo2, hhi2⟩ := halves_lt _ _ _ h2
    rw [hr, ret_of_delivered m2 lo2 hi2 h2]
    omega

theorem rdtsc_halves_recoverable_witness :
    hw_rdtsc sampleA.tsc = (5, 1) ∧
      (rdtsc sampleA).1 >>> 32 = 1 ∧ (rdtsc sampleA).1 % 2 ^ 32 = 5 ∧
      (rdtsc sampleA).1 ≠ (rdtsc (advance 4294967302 sampleA)).1 :=
  have hw := rdtsc_halves_recoverable sampleA 5 1 (by decide)
  ⟨by decide, hw.1, hw.2.1,
    hw.2.2 (advance 4294967302 sampleA) 6 1 (by decide) (Or.inl (by decide))⟩

/-! ## Consecutive calls -/

/-- C3: monotonicity.  For two consecutive calls `a = rdtsc(); b = rdtsc()`,
the second one running on the state the first one left with the counter
advanced to a 64-bit value `c2` not smaller than at the first read, `b >= a`;
the same holds for the call on any state whose counter is `c2`. -/
theorem rdtsc_monotone (m : Machine) (c2 : Nat)
    (h1 : m.tsc ≤ c2) (h2 : c2 < 2 ^ 64) :
    (rdtsc m).1 ≤ (rdtsc (advance c2 (rdtsc m).2)).1 ∧
      ∀ m2 : Machine, m2.tsc = c2 → (rdtsc m).1 ≤ (rdtsc m2).1 := by
  refine ⟨?_, ?_⟩
  · rw [ret_eq_tsc_mod, ret_eq_tsc_mod]
    simp only [advance]
    omega
  · intro m2 hm2
    rw [ret_eq_tsc_mod, ret_eq_tsc_mod, hm2]
    omega

theorem rdtsc_monotone_witness :
    (sampleA.tsc ≤ 4294967400 ∧ 4294967400 < 2 ^ 64) ∧
      (rdtsc sampleA).1 ≤ (rdtsc (advance 4294967400 (rdtsc sampleA).2)).1 :=
  ⟨⟨by decide, by decide⟩,
    (rdtsc_monotone sampleA 4294967400 (by decide) (by decide)).1⟩

/-- C8: interval measurement.  For two calls `a = rdtsc()` then `b = rdtsc()`
where the counter advanced from `c1` to `c2` with `c1 < c2 < 2 ^ 64` between
the reads, the unsigned 64-bit difference `b - a` equals `c2 - c1`, is
strictly positive, and involves no wrap-around: it is the difference of `b`
and `a` as integers. -/
theorem rdtsc_interval (m : Machine) (c2 : Nat)
    (h1 : m.tsc < c2) (h2 : c2 < 2 ^ 64) :
    sub64 (rdtsc (advance c2 (rdtsc m).2)).1 (rdtsc m).1 = c2 - m.tsc ∧
      0 < sub64 (rdtsc (advance c2 (rdtsc m).2)).1 (rdtsc m).1 ∧
      (rdtsc m).1 < (rdtsc (advance c2 (rdtsc m).2)).1 ∧
      ((sub64 (rdtsc (advance c2 (rdtsc m).2)).1 (rdtsc m).1 : Nat) : Int) =
        ((rdtsc (advance c2 (rdtsc m).2)).1 : Int) - ((rdtsc m).1 : Int) := by
  have ha : (rdtsc m).1 = m.tsc := by
    rw [ret_eq_tsc_mod]
    omega
  have hb : (rdtsc (advance c2 (rdtsc m).2)).1 = c2 := by
    rw [ret_eq_tsc_mod]
    simp only [advance]
    omega
  rw [ha, hb]
  simp only [sub64]
  omega

theorem rdtsc_interval_witness :
    (sampleA.tsc < 4294967400 ∧ 4294967400 < 2 ^ 64) ∧
      sub64 (rdtsc (advance 4294967400 (rdtsc sampleA).2)).1 (rdtsc sampleA).1 =
        4294967400 - sampleA.tsc :=
  ⟨⟨by decide, by decide⟩,
    (rdtsc_interval sampleA 4294967400 (by decide) (by decide)).1⟩

/-! ## Effects, totality, events -/

/-- C4: `rdtsc` has no side effect on explicit machine state.  For every
machine state, the memory and the objects with static storage after a call
are those before it; the counter itself and every register other than the two
output registers are unchanged as well.  The function takes no argument
besides the state. -/
theorem rdtsc_frame (m : Machine) :
    (rdtsc m).2.mem = m.mem ∧ (rdtsc m).2.globals = m.globals ∧
      (rdtsc m).2.tsc = m.tsc ∧
      ∀ r : Nat, r ≠ RAX → r ≠ RDX → (rdtsc m).2.regs r = m.regs r := by
  rw [state_after]
  refine ⟨rfl, rfl, rfl, ?_⟩
  intro r ha hd
  simp [setReg, ha, hd]

/-- C6: one call issues exactly three events, in this order: a fence, one
counter read, a fence.  The counter is read once, the read delivers the two
halves of the counter, and the returned value is computed from the two values
that single read delivered. -/
theorem rdtsc_events (m : Machine) :
    ∃ lo hi : Nat,
      (rdtsc m).2.trace = m.trace ++ [Event.mfence, Event.rdtsc lo hi, Event.mfence] ∧
      hw_rdtsc m.tsc = (lo, hi) ∧
      (rdtsc m).1 = (((hi % 2 ^ 32) % 2 ^ 64) <<< 32) % 2 ^ 64 ||| ((lo % 2 ^ 32) % 2 ^ 64) ∧
      (rdtsc m).1 = hi * 2 ^ 32 + lo := by
  refine ⟨(hw_rdtsc m.tsc).1, (hw_rdtsc m.tsc).2, ?_, rfl, ?_, ret_eq_of_halves m⟩
  · rw [state_after]
  · simp [rdtsc, asm_rdtsc, asm_mfence, setReg, RAX, RDX]

/-- C10: determinism in the counter alone.  Two machine states that agree on
the counter value at the moment of the read, whatever their memory, registers,
statics and earlier events, make `rdtsc` return the same value. -/
theorem rdtsc_deterministic (m1 m2 : Machine) (h : m1.tsc = m2.tsc) :
    (rdtsc m1).1 = (rdtsc m2).1 := by
  rw [ret_eq_tsc_mod, ret_eq_tsc_mod, h]

theorem rdtsc_deterministic_witness :
    (sampleA.tsc = sampleB.tsc ∧ sampleA.mem 1 ≠ sampleB.mem 1 ∧
        sampleA.regs 3 ≠ sampleB.regs 3) ∧
      (rdtsc sampleA).1 = (rdtsc sampleB).1 :=
  ⟨⟨by decide, by decide, by decide⟩, rdtsc_deterministic sampleA sampleB (by decide)⟩

end Mewz
